import Mathlib

/-
Verification of the docling-inputs2outputs document-conversion pipeline
(src/docling-inputs2outputs.py) against its natural-language specification.

The development shallowly embeds the pipeline's core operations:
  * atomic_write        (atomic file commit with cleanup on failure)
  * move_contents / rotate_inputs   (the four-step directory rotation)
  * list_input_files    (recursive, extension-filtered, sorted discovery)
  * generate_output_filename        (collision-avoiding output naming)
  * convert_document    (bounded retry around the external converter)
  * process_conversions / ConversionStats / main exit status

Filesystem state is modelled as association lists from path/entry names to
opaque string payloads.  External effects (the docling converter, os.walk,
os.path.getsize, clock timestamps) are supplied as explicit parameters or
oracle functions; points at which the OS can raise are modelled by explicit
fault parameters.  Wall-clock rendering (elapsed-time text, float byte
formatting) is abstracted to exact integer renderings, and quote characters
inside literal error messages are dropped; no claim depends on either.
-/

namespace Docling

/-! ## Filesystem model for the atomic writer

A flat filesystem: a finite association of full path strings to file
contents.  `fsInsert` models creating-or-truncating a file (`open(..., "w")`
followed by a full write), `fsErase` models `os.remove`. -/

/-- Filesystem for the atomic-writer model: association list path ↦ content. -/
def FS := List (String × String)

/-- Remove every entry at path `p` (models `os.remove`). -/
def fsErase (fs : FS) (p : String) : FS :=
  fs.filter (fun e => e.1 != p)

/-- Create or overwrite the file at `p` with content `v`. -/
def fsInsert (fs : FS) (p v : String) : FS :=
  (p, v) :: fsErase fs p

/-- Content of the file at `p`, if present. -/
def fsLookup (fs : FS) (p : String) : Option String :=
  (fs.find? (fun e => e.1 == p)).map (·.2)

/-- Split a path at its last slash: `(some dirname, basename)` when a slash
occurs, `(none, path)` otherwise.  Mirrors `os.path.dirname`/`basename`. -/
def splitLastSlash : List Char → Option (List Char) × List Char
  | [] => (none, [])
  | c :: rest =>
      match splitLastSlash rest with
      | (some d, b) => (some (c :: d), b)
      | (none, b) => if c = '/' then (some [], b) else (none, c :: b)

/-- Temporary sibling path used by `atomic_write`:
`os.path.join(dir_name or ".", "." + base_name + ".tmp")`. -/
def tmp_path (path : String) : String :=
  match splitLastSlash path.data with
  | (none, b) => String.mk ('.' :: '/' :: '.' :: (b ++ ".tmp".data))
  | (some d, b) => String.mk (d ++ '/' :: '.' :: (b ++ ".tmp".data))

/-- Fault scenarios for one `atomic_write` call: everything succeeds, the
`open` of the temporary file raises, the write to it raises (leaving it with
some partial content), or the final `os.replace` raises.  Each failing
scenario additionally records whether the cleanup `os.remove` of the
temporary file itself raises (`removeFails`): the source swallows that
error (`try: os.remove(...) except Exception: pass`, lines 372-376), so a
failing removal leaves the temporary file behind. -/
inductive WriteFault where
  | ok
  | openFail (msg : String) (removeFails : Bool)
  | writeFail (msg : String) (partContent : String) (removeFails : Bool)
  | replaceFail (msg : String) (removeFails : Bool)

/-- Whether the cleanup removal of the temporary file did not fail in this
scenario (vacuously true on success). -/
def WriteFault.removeOk : WriteFault → Bool
  | .ok => true
  | .openFail _ r => !r
  | .writeFail _ _ r => !r
  | .replaceFail _ r => !r

/-- Shallow embedding of `atomic_write(path, content)` (source lines
346-377).  The content is written to the temporary sibling `tmp_path path`;
`os.replace` then renames it onto `path`.  On any failure the cleanup
handler best-effort removes the temporary file (if it exists) — a failure
of the removal itself is swallowed, leaving the temporary file in place —
and re-raises: the second component is `some msg` exactly when the call
raises. -/
def atomic_write (fs : FS) (path content : String) (fault : WriteFault) :
    FS × Option String :=
  let tmp := tmp_path path
  match fault with
  | .ok =>
      -- open+write create the temp file, os.replace moves it onto path
      let fs1 := fsInsert fs tmp content
      (fsInsert (fsErase fs1 tmp) path content, none)
  | .openFail m removeFails =>
      -- temp file was not created; cleanup removes any stale temp file
      (if removeFails then fs else fsErase fs tmp, some m)
  | .writeFail m part removeFails =>
      -- temp file holds partial content; cleanup removes it (best-effort)
      let fs1 := fsInsert fs tmp part
      (if removeFails then fs1 else fsErase fs1 tmp, some m)
  | .replaceFail m removeFails =>
      -- temp file fully written; replace failed; cleanup is best-effort
      let fs1 := fsInsert fs tmp content
      (if removeFails then fs1 else fsErase fs1 tmp, some m)

lemma splitLastSlash_none_eq {p b : List Char} (h : splitLastSlash p = (none, b)) :
    p = b := by
  induction p generalizing b with
  | nil => simpa [splitLastSlash] using h
  | cons c rest ih =>
      simp only [splitLastSlash] at h
      rcases hr : splitLastSlash rest with ⟨od, b'⟩
      rw [hr] at h
      cases od with
      | some d => simp at h
      | none =>
          by_cases hc : c = '/'
          · simp [hc] at h
          · simp only [if_neg hc] at h
            have h2 := congrArg Prod.snd h
            simp only at h2
            have := ih hr
            simp_all

lemma splitLastSlash_some_eq {p d b : List Char}
    (h : splitLastSlash p = (some d, b)) : p = d ++ '/' :: b := by
  induction p generalizing d b with
  | nil => simp [splitLastSlash] at h
  | cons c rest ih =>
      simp only [splitLastSlash] at h
      rcases hr : splitLastSlash rest with ⟨od, b'⟩
      rw [hr] at h
      cases od with
      | some d' =>
          have h1 := congrArg Prod.fst h
          have h2 := congrArg Prod.snd h
          simp only at h1 h2
          obtain rfl : d = c :: d' := by simpa using h1.symm
          have := ih hr
          simp_all
      | none =>
          by_cases hc : c = '/'
          · simp only [if_pos hc] at h
            have h1 := congrArg Prod.fst h
            have h2 := congrArg Prod.snd h
            simp only at h1 h2
            obtain rfl : d = [] := by simpa using h1.symm
            have := splitLastSlash_none_eq hr
            simp_all
          · simp [if_neg hc] at h

/-- The temporary sibling path is strictly longer than the destination path,
hence distinct from it. -/
lemma tmp_path_ne (path : String) : tmp_path path ≠ path := by
  intro h
  have hlen : (tmp_path path).data.length = path.data.length := by rw [h]
  unfold tmp_path at hlen
  rcases hs : splitLastSlash path.data with ⟨od, b⟩
  cases od with
  | none =>
      rw [hs] at hlen
      have hp := splitLastSlash_none_eq hs
      simp [String.mk, hp] at hlen
      omega
  | some d =>
      rw [hs] at hlen
      have hp := splitLastSlash_some_eq hs
      simp [String.mk, hp] at hlen
      omega

lemma fsLookup_fsInsert_self (fs : FS) (p v : String) :
    fsLookup (fsInsert fs p v) p = some v := by
  simp [fsLookup, fsInsert, List.find?]

lemma fsLookup_fsErase_self (fs : FS) (p : String) :
    fsLookup (fsErase fs p) p = none := by
  simp only [fsLookup, fsErase]
  rw [List.find?_eq_none.mpr]
  · rfl
  · intro e he
    have := List.of_mem_filter he
    simpa using this

lemma fsLookup_fsErase_ne (fs : FS) (p q : String) (h : q ≠ p) :
    fsLookup (fsErase fs p) q = fsLookup fs q := by
  simp only [fsLookup, fsErase]
  induction fs with
  | nil => rfl
  | cons e rest ih =>
      by_cases he : e.1 = p
      · have : (e.1 != p) = false := by simp [he]
        simp only [List.filter_cons, this, Bool.false_eq_true, if_false]
        rw [ih]
        have : (e.1 == q) = false := by
          simp only [beq_eq_false_iff_ne]
          intro hq; exact h (hq ▸ he.symm ▸ rfl)
        simp [List.find?, this]
      · have : (e.1 != p) = true := by simp [he]
        simp only [List.filter_cons, this, if_true]
        by_cases hq : e.1 = q
        · simp [List.find?, hq]
        · have hq' : (e.1 == q) = false := by simpa using hq
          simp only [List.find?, hq']
          exact ih

lemma fsLookup_fsInsert_ne (fs : FS) (p q v : String) (h : q ≠ p) :
    fsLookup (fsInsert fs p v) q = fsLookup fs q := by
  simp only [fsInsert, fsLookup, List.find?]
  have : (p == q) = false := by
    simp only [beq_eq_false_iff_ne]; exact fun hq => h hq.symm
  simp only [this]
  exact fsLookup_fsErase_ne fs p q h

/-- Counterexample for C3 as stated: when the write to the temporary file
raises and the cleanup `os.remove` itself raises (an error the source
swallows at lines 372-376), the call surfaces the error with the temporary
sibling file still present — so the error case does not always leave the
temporary file removed.  The destination is still untouched. -/
theorem atomic_write_cleanup_failure_leaves_tmp :
    ((atomic_write [] "a/b" "new" (.writeFail "boom" "par" true)).2 ≠ none) ∧
    (fsLookup (atomic_write [] "a/b" "new" (.writeFail "boom" "par" true)).1
      (tmp_path "a/b") = some "par") ∧
    (fsLookup (atomic_write [] "a/b" "new" (.writeFail "boom" "par" true)).1
      "a/b" = none) := by
  refine ⟨by decide, by decide, by decide⟩

/-- C3 amended: `atomic_write` either completes with the destination
holding exactly the full content, or raises with the destination left
untouched (its prior lookup unchanged, so absent or holding its previous
content); the temporary sibling is removed best-effort — it is removed
whenever the cleanup removal itself does not fail, but a failing removal
(swallowed by the source) leaves it behind.  The destination is never left
holding partial content: only the success branch touches it, and only with
the full content. -/
theorem atomic_write_atomic (fs : FS) (path content : String)
    (fault : WriteFault) :
    ((atomic_write fs path content fault).2 = none →
        fsLookup (atomic_write fs path content fault).1 path = some content) ∧
    ((atomic_write fs path content fault).2 ≠ none →
        fsLookup (atomic_write fs path content fault).1 path = fsLookup fs path) ∧
    ((atomic_write fs path content fault).2 ≠ none → fault.removeOk = true →
        fsLookup (atomic_write fs path content fault).1 (tmp_path path) = none) := by
  have hne : path ≠ tmp_path path := fun h => tmp_path_ne path h.symm
  cases fault with
  | ok =>
      refine ⟨fun _ => ?_, fun h => absurd rfl h, fun h => absurd rfl h⟩
      simp only [atomic_write]
      exact fsLookup_fsInsert_self _ path content
  | openFail m removeFails =>
      refine ⟨fun h => by simp [atomic_write] at h, fun _ => ?_, fun _ hr => ?_⟩
      · cases removeFails
        · simp only [atomic_write, Bool.false_eq_true, if_false]
          exact fsLookup_fsErase_ne fs (tmp_path path) path hne
        · simp only [atomic_write, if_true]
      · cases removeFails
        · simp only [atomic_write, Bool.false_eq_true, if_false]
          exact fsLookup_fsErase_self fs (tmp_path path)
        · simp [WriteFault.removeOk] at hr
  | writeFail m part removeFails =>
      refine ⟨fun h => by simp [atomic_write] at h, fun _ => ?_, fun _ hr => ?_⟩
      · cases removeFails
        · simp only [atomic_write, Bool.false_eq_true, if_false]
          rw [fsLookup_fsErase_ne _ (tmp_path path) path hne]
          exact fsLookup_fsInsert_ne fs (tmp_path path) path part hne
        · simp only [atomic_write, if_true]
          exact fsLookup_fsInsert_ne fs (tmp_path path) path part hne
      · cases removeFails
        · simp only [atomic_write, Bool.false_eq_true, if_false]
          exact fsLookup_fsErase_self _ (tmp_path path)
        · simp [WriteFault.removeOk] at hr
  | replaceFail m removeFails =>
      refine ⟨fun h => by simp [atomic_write] at h, fun _ => ?_, fun _ hr => ?_⟩
      · cases removeFails
        · simp only [atomic_write, Bool.false_eq_true, if_false]
          rw [fsLookup_fsErase_ne _ (tmp_path path) path hne]
          exact fsLookup_fsInsert_ne fs (tmp_path path) path content hne
        · simp only [atomic_write, if_true]
          exact fsLookup_fsInsert_ne fs (tmp_path path) path content hne
      · cases removeFails
        · simp only [atomic_write, Bool.false_eq_true, if_false]
          exact fsLookup_fsErase_self _ (tmp_path path)
        · simp [WriteFault.removeOk] at hr

/-- Witness for C3 amended: a failing `os.replace` (with the cleanup
removal succeeding) on a destination that already held content leaves the
old content in place and no temporary file. -/
theorem atomic_write_atomic_witness :
    (atomic_write [("a/b", "old")] "a/b" "new" (.replaceFail "boom" false)).2
      ≠ none ∧
    fsLookup (atomic_write [("a/b", "old")] "a/b" "new"
      (.replaceFail "boom" false)).1 "a/b" = some "old" ∧
    fsLookup (atomic_write [("a/b", "old")] "a/b" "new"
      (.replaceFail "boom" false)).1 (tmp_path "a/b") = none := by
  have h := atomic_write_atomic [("a/b", "old")] "a/b" "new"
    (.replaceFail "boom" false)
  exact ⟨by decide, (h.2.1 (by decide)).trans (by decide),
    h.2.2 (by decide) (by decide)⟩

/-! ## Directory rotation model

A directory is a finite association of top-level entry names to opaque
payloads (the payload stands for the file content or the whole subtree of a
subdirectory; `move_contents` moves entries whole either way).  A directory
that may not exist is an `Option Dir`. -/

/-- Contents of one directory: top-level entry name ↦ opaque payload. -/
def Dir := List (String × String)

instance : DecidableEq Dir := by unfold Dir; infer_instance

/-- Entry names of a directory. -/
def dirKeys (d : Dir) : List String := d.map Prod.fst

/-- Remove the entry named `n` (models `shutil.rmtree`/`os.remove` of a
conflicting destination entry). -/
def eraseEntry (d : Dir) (n : String) : Dir :=
  d.filter (fun e => e.1 != n)

/-- Place entry `n ↦ c`, overwriting any existing entry of that name. -/
def insertEntry (d : Dir) (n c : String) : Dir :=
  (n, c) :: eraseEntry d n

/-- Shallow embedding of `move_contents(src_dir, dst_dir, overwrite=True)`
(source lines 290-343) on the no-per-entry-error path (every claim about it
conditions on the absence of per-entry move errors).  If the source
directory does not exist, nothing happens and the destination is not
created; otherwise the destination is created if absent, every entry is
moved into it in listing order (conflicting destination entries removed
first, i.e. overwritten), the source is left existing but empty, and the
number of entries moved is returned. -/
def move_contents (src dst : Option Dir) : Nat × Option Dir × Option Dir :=
  match src with
  | none => (0, none, dst)
  | some s =>
      let d0 : Dir := dst.getD []
      (s.length, some [], some (s.foldl (fun d e => insertEntry d e.1 e.2) d0))

/-- Directory state touched by the rotation: the three rotating directories
(each possibly nonexistent) plus the accumulated `inputs_old_*` archive
directories (name ↦ archived contents). -/
structure RotState where
  inputs : Option Dir
  queue : Option Dir
  staging : Option Dir
  archives : List (String × Dir)
deriving DecidableEq

/-- Shallow embedding of `rotate_inputs` (source lines 412-481).
Step 1: if `inputs` exists, rename it to `./inputs_old_<stamp>`
(`renameFails` models `shutil.move` raising, in which case the code falls
back to best-effort `shutil.rmtree`, itself modelled fallible by
`rmtreeFails`).  Step 2: `ensure_dir` recreates `inputs` (keeping whatever
is still there when both fallbacks failed).  Step 3 moves the queue into
staging, step 4 moves staging into `inputs`.  Returns the new state, the
`old_inputs_path` string, and the two move counts. -/
def rotate_inputs (st : RotState) (stamp : String)
    (renameFails rmtreeFails : Bool) : RotState × String × Nat × Nat :=
  -- Step 1: rotate old inputs
  let step1 : RotState × String :=
    match st.inputs with
    | some d =>
        if renameFails then
          if rmtreeFails then (st, "./inputs_old_" ++ stamp)
          else ({ st with inputs := none }, "./inputs_old_" ++ stamp)
        else
          ({ st with inputs := none,
                     archives := ("./inputs_old_" ++ stamp, d) :: st.archives },
           "./inputs_old_" ++ stamp)
    | none => (st, "")
  let st1 := step1.1
  -- Step 2: recreate empty inputs (ensure_dir: keeps contents if present)
  let st2 := { st1 with inputs := some (st1.inputs.getD []) }
  -- Step 3: queue -> staging
  let m3 := move_contents st2.queue st2.staging
  let st3 := { st2 with queue := m3.2.1, staging := m3.2.2 }
  -- Step 4: staging -> inputs
  let m4 := move_contents st3.staging st3.inputs
  let st4 := { st3 with staging := m4.2.1, inputs := m4.2.2 }
  (st4, step1.2, m3.1, m4.1)

/-- Counterexample for C1 as stated: with `inputs` holding one entry, a
failing rename (and a successful best-effort `rmtree` fallback, source
lines 444-451) ends the rotation with no archive created and the prior
entry present in no directory of the state — the prior contents were
deleted, not archived. -/
theorem rotate_inputs_rename_failure_deletes :
    (rotate_inputs ⟨some [("f.pdf", "data")], some [], some [], []⟩
        "20250101_000000_000" true false).1 =
      ⟨some [], some [], some [], []⟩ := by
  decide

/-- C1 amended: prior contents of `inputs` are archived (never deleted)
whenever the step-1 rename succeeds — the archive list gains exactly the
prior contents under `./inputs_old_<stamp>`, and the rest of the rotation
proceeds exactly as if `inputs` had started empty (so `inputs` is replaced
by a fresh directory holding only swept queue/staging entries).  When the
rename fails, nothing is archived: the contents are best-effort deleted. -/
theorem rotate_inputs_archive_amended (st : RotState) (stamp : String)
    (d : Dir) (rmtreeFails : Bool) (h : st.inputs = some d) :
    ((rotate_inputs st stamp false rmtreeFails).1.archives =
        ("./inputs_old_" ++ stamp, d) :: st.archives) ∧
    ((rotate_inputs st stamp false rmtreeFails).1.inputs =
        (rotate_inputs { st with inputs := none } stamp false rmtreeFails).1.inputs) ∧
    ((rotate_inputs st stamp true false).1.archives = st.archives) := by
  refine ⟨?_, ?_, ?_⟩ <;> simp [rotate_inputs, h]

/-- Witness for C1 amended, at a concrete state: the archive appears and
the swept `inputs` matches the empty-start run. -/
theorem rotate_inputs_archive_amended_witness :
    ((rotate_inputs ⟨some [("a", "x")], some [("q", "1")], some [], []⟩ "t"
        false false).1.archives = [("./inputs_old_t", [("a", "x")])]) ∧
    ((rotate_inputs ⟨some [("a", "x")], some [("q", "1")], some [], []⟩ "t"
        false false).1.inputs =
      (rotate_inputs ⟨none, some [("q", "1")], some [], []⟩ "t"
        false false).1.inputs) := by
  have h := rotate_inputs_archive_amended
    ⟨some [("a", "x")], some [("q", "1")], some [], []⟩ "t" [("a", "x")] false rfl
  exact ⟨h.1, h.2.1⟩

lemma dirKeys_eraseEntry_subset (d : Dir) (n : String) :
    dirKeys (eraseEntry d n) ⊆ dirKeys d := by
  unfold dirKeys eraseEntry
  intro x hx
  simp only [List.mem_map] at hx ⊢
  obtain ⟨e, he, rfl⟩ := hx
  exact ⟨e, List.mem_of_mem_filter he, rfl⟩

lemma eraseEntry_of_notMem (d : Dir) (n : String) (h : n ∉ dirKeys d) :
    eraseEntry d n = d := by
  unfold eraseEntry
  apply List.filter_eq_self.mpr
  intro e he
  simp only [bne_iff_ne, ne_eq]
  intro hc
  exact h (hc ▸ List.mem_map_of_mem Prod.fst he)

lemma length_insertEntry_notMem (d : Dir) (n c : String) (h : n ∉ dirKeys d) :
    (insertEntry d n c).length = d.length + 1 := by
  unfold insertEntry
  rw [eraseEntry_of_notMem d n h]
  simp [List.length_cons]

lemma dirKeys_insertEntry_subset (d : Dir) (n c : String) :
    dirKeys (insertEntry d n c) ⊆ n :: dirKeys d := by
  unfold insertEntry dirKeys
  intro x hx
  simp only [List.map_cons, List.mem_cons] at hx ⊢
  rcases hx with h | h
  · exact Or.inl h
  · exact Or.inr (dirKeys_eraseEntry_subset d n h)

lemma nodup_dirKeys_insertEntry (d : Dir) (n c : String)
    (hd : (dirKeys d).Nodup) : (dirKeys (insertEntry d n c)).Nodup := by
  unfold insertEntry dirKeys
  simp only [List.map_cons, List.nodup_cons]
  constructor
  · intro hmem
    have : n ∈ dirKeys (eraseEntry d n) := hmem
    unfold eraseEntry dirKeys at this
    simp only [List.mem_map] at this
    obtain ⟨e, he, hee⟩ := this
    have := List.of_mem_filter he
    simp [hee] at this
  · have : (eraseEntry d n).Sublist d := List.filter_sublist d
    exact (this.map Prod.fst).nodup hd

/-- Folding a list of entries into a directory (the per-entry loop of
`move_contents`) increases its size by exactly the number of entries, when
the incoming names are distinct and do not collide with existing names. -/
lemma foldl_insertEntry_length :
    ∀ (s : List (String × String)) (d : Dir),
      (s.map Prod.fst).Nodup → (∀ n ∈ s.map Prod.fst, n ∉ dirKeys d) →
      (s.foldl (fun d e => insertEntry d e.1 e.2) d).length = d.length + s.length := by
  intro s
  induction s with
  | nil => intro d _ _; simp
  | cons e rest ih =>
      intro d hnd hdisj
      simp only [List.map_cons, List.nodup_cons] at hnd
      have he : e.1 ∉ dirKeys d := hdisj e.1 (by simp)
      have hrest : ∀ n ∈ rest.map Prod.fst, n ∉ dirKeys (insertEntry d e.1 e.2) := by
        intro n hn hmem
        have := dirKeys_insertEntry_subset d e.1 e.2 hmem
        simp only [List.mem_cons] at this
        rcases this with h | h
        · exact hnd.1 (h ▸ hn)
        · exact hdisj n (by simp [hn]) h
      simp only [List.foldl_cons]
      rw [ih (insertEntry d e.1 e.2) hnd.2 hrest,
        length_insertEntry_notMem d e.1 e.2 he]
      simp [List.length_cons]
      omega

lemma foldl_insertEntry_nodup :
    ∀ (s : List (String × String)) (d : Dir),
      (s.map Prod.fst).Nodup → (dirKeys d).Nodup →
      (dirKeys (s.foldl (fun d e => insertEntry d e.1 e.2) d)).Nodup := by
  intro s
  induction s with
  | nil => intro d _ hd; exact hd
  | cons e rest ih =>
      intro d hnd hd
      simp only [List.map_cons, List.nodup_cons] at hnd
      simp only [List.foldl_cons]
      exact ih (insertEntry d e.1 e.2) hnd.2 (nodup_dirKeys_insertEntry d e.1 e.2 hd)

/-- Counterexample for C4 as stated: when the step-1 rename fails and the
best-effort `rmtree` fallback also fails (both errors swallowed, source
lines 444-451; the rotation still completes), the stale prior entry of
`inputs` survives `ensure_dir` and the staging sweep merges on top of it:
with one queued entry and one staged entry (all names distinct, no
per-entry move error, no overwrite), `inputs` ends with 3 top-level entries
while `entries(queue before) + entries(staging before) = 2` — the count
equality of the claim fails. -/
theorem rotate_inputs_stale_inputs_break_count :
    ((rotate_inputs ⟨some [("x", "0")], some [("a", "1")], some [("b", "2")], []⟩
        "t" true true).1.queue = some []) ∧
    ((rotate_inputs ⟨some [("x", "0")], some [("a", "1")], some [("b", "2")], []⟩
        "t" true true).1.staging = some []) ∧
    (∃ d : Dir,
      (rotate_inputs ⟨some [("x", "0")], some [("a", "1")], some [("b", "2")], []⟩
        "t" true true).1.inputs = some d ∧
      d.length ≠ [("a", "1")].length + [("b", "2")].length) := by
  refine ⟨by decide, by decide,
    ⟨[("b", "2"), ("a", "1"), ("x", "0")], by decide, by decide⟩⟩

/-- C4 amended: when the queue and staging directories exist, no per-entry
move error occurs (the modelled path of `move_contents`), entry names do
not collide, and the archive step left `inputs` cleared — the rename
succeeded, or its rmtree fallback succeeded, or `inputs` did not pre-exist
(when both the rename and the fallback deletion fail, stale prior entries
remain in `inputs` and the count equality can fail, see the
counterexample) — the four-step rotation leaves `inputsQueue` and
`inputsStaging` existing and empty, and `inputs` holds exactly
`|queue| + |staging|` top-level entries. -/
theorem rotate_inputs_count_preserving
    (q s : Dir) (inputsInit : Option Dir) (archives : List (String × Dir))
    (stamp : String) (renameFails rmtreeFails : Bool)
    (hq : (dirKeys q).Nodup) (hs : (dirKeys s).Nodup)
    (hdisj : ∀ n ∈ dirKeys q, n ∉ dirKeys s)
    (hclear : renameFails = false ∨ rmtreeFails = false ∨ inputsInit = none) :
    ((rotate_inputs ⟨inputsInit, some q, some s, archives⟩ stamp
        renameFails rmtreeFails).1.queue = some []) ∧
    ((rotate_inputs ⟨inputsInit, some q, some s, archives⟩ stamp
        renameFails rmtreeFails).1.staging = some []) ∧
    (∃ d : Dir,
      (rotate_inputs ⟨inputsInit, some q, some s, archives⟩ stamp
        renameFails rmtreeFails).1.inputs = some d ∧
      d.length = q.length + s.length) := by
  have hstage : ∀ n ∈ dirKeys q, n ∉ dirKeys (s : Dir) := hdisj
  -- contents of staging after step 3
  set merged : Dir := q.foldl (fun d e => insertEntry d e.1 e.2) s with hmerged
  have hmlen : merged.length = s.length + q.length :=
    foldl_insertEntry_length q s hq hstage
  have hmnodup : (dirKeys merged).Nodup :=
    foldl_insertEntry_nodup q s hq hs
  have hfinal : (merged.foldl (fun d e => insertEntry d e.1 e.2) ([] : Dir)).length
      = merged.length := by
    have := foldl_insertEntry_length merged [] hmnodup (by intro n _ h; simp [dirKeys] at h)
    simpa using this
  -- step 1 leaves inputs cleared under hclear, so step 2 yields an empty dir
  have hgoal : (merged.foldl (fun d e => insertEntry d e.1 e.2) ([] : Dir)).length
      = q.length + s.length := by rw [hfinal, hmlen]; omega
  rcases hclear with h | h | h
  · subst h
    cases inputsInit <;>
      · refine ⟨rfl, rfl, merged.foldl (fun d e => insertEntry d e.1 e.2) [], ?_, hgoal⟩
        rfl
  · subst h
    cases renameFails <;> cases inputsInit <;>
      · refine ⟨rfl, rfl, merged.foldl (fun d e => insertEntry d e.1 e.2) [], ?_, hgoal⟩
        rfl
  · subst h
    refine ⟨rfl, rfl, merged.foldl (fun d e => insertEntry d e.1 e.2) [], ?_, hgoal⟩
    rfl

/-- Witness for C4 at a concrete rotation: one queued entry and one staged
entry end up as exactly two entries in `inputs`, with queue and staging
empty. -/
theorem rotate_inputs_count_preserving_witness :
    ((rotate_inputs ⟨some [("z", "0")], some [("a", "1")], some [("b", "2")], []⟩
        "t" false false).1.queue = some []) ∧
    ((rotate_inputs ⟨some [("z", "0")], some [("a", "1")], some [("b", "2")], []⟩
        "t" false false).1.staging = some []) ∧
    (∃ d : Dir,
      (rotate_inputs ⟨some [("z", "0")], some [("a", "1")], some [("b", "2")], []⟩
        "t" false false).1.inputs = some d ∧ d.length = 2) :=
  rotate_inputs_count_preserving [("a", "1")] [("b", "2")] (some [("z", "0")]) []
    "t" false false (by decide) (by decide) (by decide) (Or.inl rfl)

/-! ## File discovery model

`os.walk(input_dir)` is the external enumeration primitive: it yields a
sequence of (directory, filenames) pairs in an OS-determined order.  We
model its output directly as `List (String × List String)` — each pair is a
walked directory (as a path relative to the input root, `""` for the root
itself) with its file names.  A nonexistent root is `none`.  The source
returns `(absolute_path, relative_path)` pairs where the absolute path is
the root-resolved join of the relative one (a bijection); records are
modelled by their relative path, the stable identity the spec names. -/

/-- Lower-case a string character-wise (ASCII extensions; `str.lower`). -/
def lowerStr (s : String) : String := String.mk (s.data.map Char.toLower)

/-- Strip every leading dot (`str.lstrip(".")`). -/
def lstripDots (s : String) : String :=
  String.mk (s.data.dropWhile (fun c => c == '.'))

/-- Index of the last occurrence of `c` in `l`, if any. -/
def lastIdxOf (c : Char) (l : List Char) : Option Nat :=
  ((l.enum.filter (fun e => e.2 == c)).map (·.1)).getLast?

/-- Shallow embedding of `os.path.splitext`: split at the last dot that
lies after the last path separator and is preceded (within the basename) by
at least one non-dot character; otherwise the extension is empty. -/
def splitext (p : String) : String × String :=
  let l := p.data
  match lastIdxOf '.' l with
  | none => (p, "")
  | some d =>
      let b : Nat :=
        match lastIdxOf '/' l with
        | none => 0
        | some sIdx => sIdx + 1
      if b ≤ d && ((l.drop b).take (d - b)).any (fun c => c != '.') then
        (String.mk (l.take d), String.mk (l.drop d))
      else (p, "")

/-- The extension filter of `list_input_files` (source lines 253-257): the
file name must have a nonempty `splitext` extension whose lower-cased,
dot-stripped form is a member of the lower-cased allowed set. -/
def fileQualifies (name : String) (allowed : List String) : Bool :=
  let ext := (splitext name).2
  if ext.isEmpty then false
  else (allowed.map lowerStr).contains (lstripDots (lowerStr ext))

/-- Join a walked directory's relative path with a file name. -/
def joinRel (dir name : String) : String :=
  if dir.isEmpty then name else dir ++ "/" ++ name

/-- The relative paths collected by the walk loop of `list_input_files`, in
walk order: for each walked directory, its qualifying file names joined to
the directory's relative path. -/
def collectFiles (walk : List (String × List String)) (allowed : List String) :
    List String :=
  walk.flatMap (fun wd =>
    (wd.2.filter (fun n => fileQualifies n allowed)).map (fun n => joinRel wd.1 n))

/-- Every (directory, file name) pair of a walk, in walk order — the raw
enumeration, before any filtering. -/
def allEntries (walk : List (String × List String)) : List (String × String) :=
  walk.flatMap (fun wd => wd.2.map (fun n => (wd.1, n)))

/-- Boolean lexicographic comparison of strings by character code point —
the order Python's `sorted` uses on `str` keys. -/
def strLeB : List Char → List Char → Bool
  | [], _ => true
  | _ :: _, [] => false
  | a :: as, b :: bs => if a = b then strLeB as bs else decide (a.toNat < b.toNat)

/-- The sort key order of `list_input_files`: lexicographic, ascending. -/
def pathLe (a b : String) : Prop := strLeB a.data b.data = true

instance : DecidableRel pathLe := fun a b => by unfold pathLe; infer_instance

lemma char_eq_of_toNat_eq {a b : Char} (h : a.toNat = b.toNat) : a = b :=
  Char.eq_of_val_eq (UInt32.toNat.inj h)

lemma strLeB_total : ∀ a b, strLeB a b = true ∨ strLeB b a = true := by
  intro a
  induction a with
  | nil => intro b; left; rfl
  | cons x xs ih =>
      intro b
      cases b with
      | nil => right; rfl
      | cons y ys =>
          simp only [strLeB]
          by_cases hxy : x = y
          · subst hxy
            simpa using ih ys
          · have hne : x.toNat ≠ y.toNat := fun h => hxy (char_eq_of_toNat_eq h)
            have hyx : ¬ y = x := fun h => hxy h.symm
            simp only [if_neg hxy, if_neg hyx, decide_eq_true_eq]
            omega

lemma strLeB_trans : ∀ a b c, strLeB a b = true → strLeB b c = true →
    strLeB a c = true := by
  intro a
  induction a with
  | nil => intro b c _ _; rfl
  | cons x xs ih =>
      intro b c hab hbc
      cases b with
      | nil => simp [strLeB] at hab
      | cons y ys =>
          cases c with
          | nil => simp [strLeB] at hbc
          | cons z zs =>
              simp only [strLeB] at hab hbc ⊢
              by_cases hxy : x = y
              · subst hxy
                rw [if_pos rfl] at hab
                by_cases hyz : x = z
                · subst hyz
                  rw [if_pos rfl] at hbc ⊢
                  exact ih ys zs hab hbc
                · rw [if_neg hyz] at hbc ⊢
                  exact hbc
              · rw [if_neg hxy] at hab
                by_cases hyz : y = z
                · subst hyz
                  rw [if_neg hxy]
                  exact hab
                · rw [if_neg hyz] at hbc
                  have h1 : x.toNat < y.toNat := by simpa using hab
                  have h2 : y.toNat < z.toNat := by simpa using hbc
                  have hxz : ¬ x = z := by
                    intro h; subst h
                    have : x.toNat = x.toNat := rfl
                    omega
                  rw [if_neg hxz]
                  simp only [decide_eq_true_eq]
                  omega

lemma strLeB_antisymm : ∀ a b, strLeB a b = true → strLeB b a = true →
    a = b := by
  intro a
  induction a with
  | nil =>
      intro b _ hba
      cases b with
      | nil => rfl
      | cons y ys => simp [strLeB] at hba
  | cons x xs ih =>
      intro b hab hba
      cases b with
      | nil => simp [strLeB] at hab
      | cons y ys =>
          simp only [strLeB] at hab hba
          by_cases hxy : x = y
          · subst hxy
            rw [if_pos rfl] at hab hba
            rw [ih ys hab hba]
          · have hyx : ¬ y = x := fun h => hxy h.symm
            rw [if_neg hxy] at hab
            rw [if_neg hyx] at hba
            simp only [decide_eq_true_eq] at hab hba
            omega

instance : IsTotal String pathLe := ⟨fun a b => strLeB_total a.data b.data⟩

instance : IsTrans String pathLe :=
  ⟨fun a b c hab hbc => strLeB_trans a.data b.data c.data hab hbc⟩

instance : IsAntisymm String pathLe :=
  ⟨fun a b hab hba => String.ext (strLeB_antisymm a.data b.data hab hba)⟩

/-- Shallow embedding of `list_input_files(input_dir, allowed_types)`
(source lines 230-264): empty for a nonexistent root, otherwise the
qualifying relative paths collected in walk order and sorted by relative
path. -/
def list_input_files (root : Option (List (String × List String)))
    (allowed : List String) : List String :=
  match root with
  | none => []
  | some walk => List.insertionSort pathLe (collectFiles walk allowed)

lemma collectFiles_eq_filter (walk : List (String × List String))
    (allowed : List String) :
    collectFiles walk allowed =
      ((allEntries walk).filter (fun e => fileQualifies e.2 allowed)).map
        (fun e => joinRel e.1 e.2) := by
  induction walk with
  | nil => rfl
  | cons wd rest ih =>
      simp only [collectFiles, allEntries, List.flatMap_cons, List.filter_append,
        List.map_append] at ih ⊢
      rw [ih]
      congr 1
      rw [List.filter_map]
      rw [List.map_map]
      rfl

/-- C5: the discovery contract of `list_input_files`.
(a) a nonexistent root yields the empty sequence, not an error;
(b) the result is sorted lexicographically ascending by relative path;
(c) a relative path is returned exactly when some walked directory holds a
file of that name whose extension (case-insensitive, dot stripped) is in
the allowed set — files without an extension never qualify;
(d) discovery is deterministic: two walks enumerating the same (directory,
file) pairs — in any orders — produce identical ordered results, so two
discoveries over an unchanged tree yield identical ordered lists. -/
theorem list_input_files_spec (allowed : List String) :
    (list_input_files none allowed = []) ∧
    (∀ walk, List.Sorted pathLe (list_input_files (some walk) allowed)) ∧
    (∀ walk p, p ∈ list_input_files (some walk) allowed ↔
      ∃ wd ∈ walk, ∃ name ∈ wd.2,
        fileQualifies name allowed = true ∧ p = joinRel wd.1 name) ∧
    (∀ w₁ w₂, (allEntries w₁).Perm (allEntries w₂) →
      list_input_files (some w₁) allowed = list_input_files (some w₂) allowed) := by
  refine ⟨rfl, ?_, ?_, ?_⟩
  · intro walk
    exact List.sorted_insertionSort pathLe (collectFiles walk allowed)
  · intro walk p
    simp only [list_input_files, List.mem_insertionSort, collectFiles,
      List.mem_flatMap, List.mem_map, List.mem_filter]
    constructor
    · rintro ⟨wd, hwd, n, ⟨hn, hq⟩, rfl⟩
      exact ⟨wd, hwd, n, hn, hq, rfl⟩
    · rintro ⟨wd, hwd, n, hn, hq, rfl⟩
      exact ⟨wd, hwd, n, ⟨hn, hq⟩, rfl⟩
  · intro w₁ w₂ hperm
    have hcoll : (collectFiles w₁ allowed).Perm (collectFiles w₂ allowed) := by
      rw [collectFiles_eq_filter, collectFiles_eq_filter]
      exact (hperm.filter _).map _
    have hp : (List.insertionSort pathLe (collectFiles w₁ allowed)).Perm
        (List.insertionSort pathLe (collectFiles w₂ allowed)) :=
      ((List.perm_insertionSort pathLe _).trans hcoll).trans
        (List.perm_insertionSort pathLe _).symm
    exact List.eq_of_perm_of_sorted hp
      (List.sorted_insertionSort pathLe _) (List.sorted_insertionSort pathLe _)

/-- Witness for C5: a concrete reordered walk over the same tree gives the
identical sorted discovery result. -/
theorem list_input_files_spec_witness :
    list_input_files (some [("", ["b.PDF", "a.md"]), ("sub", ["c.pdf"])])
        ["pdf", "md"] =
      list_input_files (some [("sub", ["c.pdf"]), ("", ["a.md", "b.PDF"])])
        ["pdf", "md"] :=
  (list_input_files_spec ["pdf", "md"]).2.2.2
    [("", ["b.PDF", "a.md"]), ("sub", ["c.pdf"])]
    [("sub", ["c.pdf"]), ("", ["a.md", "b.PDF"])] (by decide)

/-! ## Output filename generation -/

/-- Shallow embedding of `generate_output_filename` (source lines 488-504):
the f-string `"{input_filename}_from_{input_ext}.{output_ext}"`. -/
def generate_output_filename (input_filename input_ext output_ext : String) :
    String :=
  input_filename ++ "_from_" ++ input_ext ++ "." ++ output_ext

/-- Counterexample for C7 as stated: over arbitrary strings the generator
is not injective — the two distinct triples `("a_from_b", "c", "md")` and
`("a", "b_from_c", "md")` both produce `"a_from_b_from_c.md"`. -/
theorem generate_output_filename_not_injective :
    generate_output_filename "a_from_b" "c" "md" =
      generate_output_filename "a" "b_from_c" "md" ∧
    ("a_from_b", "c", "md") ≠ ("a", "b_from_c", "md") := by
  constructor
  · rfl
  · decide

/-- The supported format registry: the keys of `EXPORT_METHODS` (source
lines 55-61), which configuration validation restricts every input and
output type to. -/
inductive SupportedExt where
  | pdf | docx | txt | md | html
deriving DecidableEq, Fintype

/-- String form of a supported extension. -/
def SupportedExt.str : SupportedExt → String
  | .pdf => "pdf"
  | .docx => "docx"
  | .txt => "txt"
  | .md => "md"
  | .html => "html"

/-- The part of a generated filename that follows the base name. -/
def extTail (s t : SupportedExt) : List Char :=
  "_from_".data ++ s.str.data ++ '.' :: t.str.data

/-- Among the 25 possible tails, the only suffix relations are equalities:
knowing the tail as a suffix determines both extensions. -/
lemma extTail_suffix_inj : ∀ s t s' t' : SupportedExt,
    extTail s t <:+ extTail s' t' → s = s' ∧ t = t' := by
  decide

/-- C7 amended: the generator is injective over triples whose source and
target extensions are drawn from the supported registry (as validated
configurations guarantee); the base name may be any string.  Over fully
arbitrary strings injectivity fails (see the counterexample). -/
theorem generate_output_filename_injective
    (b b' : String) (s t s' t' : SupportedExt)
    (h : generate_output_filename b s.str t.str =
      generate_output_filename b' s'.str t'.str) :
    b = b' ∧ s = s' ∧ t = t' := by
  have hdata : b.data ++ extTail s t = b'.data ++ extTail s' t' := by
    have := congrArg String.data h
    simpa [generate_output_filename, extTail] using this
  have hsuf1 : extTail s t <:+ b.data ++ extTail s t := ⟨b.data, rfl⟩
  have hsuf2 : extTail s' t' <:+ b.data ++ extTail s t := by
    rw [hdata]; exact ⟨b'.data, rfl⟩
  have hst : s = s' ∧ t = t' := by
    rcases List.suffix_or_suffix_of_suffix hsuf1 hsuf2 with hsufs | hsufs
    · exact extTail_suffix_inj s t s' t' hsufs
    · have := extTail_suffix_inj s' t' s t hsufs
      exact ⟨this.1.symm, this.2.symm⟩
  obtain ⟨rfl, rfl⟩ := hst
  refine ⟨?_, rfl, rfl⟩
  exact String.ext (List.append_cancel_right hdata)

/-- Witness for C7 amended, at a concrete collision-free instance. -/
theorem generate_output_filename_injective_witness :
    ("report" : String) = "report" ∧ SupportedExt.pdf = SupportedExt.pdf ∧
      SupportedExt.md = SupportedExt.md :=
  generate_output_filename_injective "report" "report" .pdf .md .pdf .md rfl

/-! ## Conversion with retry

The external conversion capability is modelled by an oracle `Nat → Attempt`
describing what the environment does on each attempt: whether
`converter.convert` raises, whether the result has a `document`, whether
the document has the export method, whether the export call raises or what
it returns, and whether the post-export directory creation / atomic write
raises.  `EXPORT_METHODS` lookup is determined by the requested output
extension as in the source. -/

/-- Environment behaviour of one conversion attempt. -/
structure Attempt where
  convertErr : Option String
  hasDocument : Bool
  hasMethod : Bool
  exportErr : Option String
  exportContent : Option String
  writeErr : Option String

/-- The `EXPORT_METHODS` registry (source lines 55-61). -/
def EXPORT_METHODS : List (String × String) :=
  [("pdf", "export_to_pdf"), ("docx", "export_to_docx"),
   ("txt", "export_to_text"), ("md", "export_to_markdown"),
   ("html", "export_to_html")]

/-- Look up in an association list (`dict.get`). -/
def lookupStr (l : List (String × String)) (k : String) : Option String :=
  (l.find? (fun e => e.1 == k)).map (·.2)

/-- Observable events of a `convert_document` call: an invocation of the
external converter, a retry-delay sleep, or an atomic-write attempt. -/
inductive Ev where
  | convertCall
  | sleepEv
  | writeCall
deriving DecidableEq

/-- Result of the body of one attempt of the retry loop: either one of the
early `return False, ...` paths or the final `return True`, or an exception
that propagates to the `except` handler. -/
inductive StepOut where
  | ret (ok : Bool) (msg : String) (evs : List Ev)
  | raised (msg : String) (evs : List Ev)

/-- One iteration of the `try` body of `convert_document` (source lines
525-565), minus the leading retry sleep: convert, validate the document,
look up and validate the export method, export, validate the content, then
create the output directory and write atomically.  Validation failures
return without raising; converter/export/write errors raise. -/
def runAttempt (a : Attempt) (output_ext : String) : StepOut :=
  match a.convertErr with
  | some m => .raised m [.convertCall]
  | none =>
      if !a.hasDocument then
        .ret false "Conversion result has no document attribute" [.convertCall]
      else
        match lookupStr EXPORT_METHODS output_ext with
        | none =>
            .ret false ("No export method mapping for output type: " ++ output_ext)
              [.convertCall]
        | some mname =>
            if !a.hasMethod then
              .ret false ("Document missing method " ++ mname) [.convertCall]
            else
              match a.exportErr with
              | some m => .raised m [.convertCall]
              | none =>
                  match a.exportContent with
                  | none => .ret false "Export method returned None" [.convertCall]
                  | some c =>
                      if c.isEmpty then
                        .ret false "Export method returned empty content" [.convertCall]
                      else
                        match a.writeErr with
                        | some m => .raised m [.convertCall, .writeCall]
                        | none => .ret true "Success" [.convertCall, .writeCall]

/-- The retry loop `for attempt in range(retry_attempts + 1)` of
`convert_document` (source lines 524-575), with `fuel` the number of loop
iterations still available (`retry_attempts + 1 - attempt`).  A raising
attempt retries (after a sleep at the top of the next iteration) while
`attempt < retry_attempts`, and otherwise returns the failure with the
wrapped error message. -/
def convertGo (env : Nat → Attempt) (output_ext : String)
    (retry_attempts attempt : Nat) : Nat → (Bool × String) × List Ev
  | 0 => ((false, "Max retries reached"), [])
  | fuel + 1 =>
      let pre : List Ev := if attempt > 0 then [.sleepEv] else []
      match runAttempt (env attempt) output_ext with
      | .ret ok msg evs => ((ok, msg), pre ++ evs)
      | .raised m evs =>
          if attempt < retry_attempts then
            let r := convertGo env output_ext retry_attempts (attempt + 1) fuel
            (r.1, pre ++ evs ++ r.2)
          else ((false, "Conversion error: " ++ m), pre ++ evs)

/-- Shallow embedding of `convert_document` (source lines 507-575),
returning the `(success, message)` pair together with the event trace. -/
def convert_document (env : Nat → Attempt) (output_ext : String)
    (retry_attempts : Nat) : (Bool × String) × List Ev :=
  convertGo env output_ext retry_attempts 0 (retry_attempts + 1)

/-- Environment in which every attempt converts and exports successfully
but the atomic write raises `w k` on attempt `k`. -/
def writeFailEnv (w : Nat → String) : Nat → Attempt :=
  fun k => ⟨none, true, true, none, some "x", some (w k)⟩

/-- Counterexample for C2 as stated: with one retry available, a write
failure on the first attempt (everything converted and exported) is caught
by the retry loop — a retry sleep occurs, the converter is invoked a second
time, and the task is recorded as a `Success`, not as a failure with the
write error as reason. -/
theorem convert_document_write_failure_retried :
    convert_document
        (fun k => if k = 0 then ⟨none, true, true, none, some "x", some "disk full"⟩
                  else ⟨none, true, true, none, some "x", none⟩) "md" 1 =
      ((true, "Success"),
       [.convertCall, .writeCall, .sleepEv, .convertCall, .writeCall]) := by
  decide

lemma convertGo_writeFail (w : Nat → String) (n : Nat) :
    ∀ fuel attempt, fuel + attempt = n + 1 → attempt ≤ n →
      convertGo (writeFailEnv w) "md" n attempt fuel =
        ((false, "Conversion error: " ++ w n),
         (if attempt > 0 then [Ev.sleepEv] else []) ++
           [Ev.convertCall, Ev.writeCall] ++
           (List.replicate (n - attempt)
             [Ev.sleepEv, Ev.convertCall, Ev.writeCall]).flatten) := by
  intro fuel
  induction fuel with
  | zero => intro attempt h1 h2; omega
  | succ f ih =>
      intro attempt h1 h2
      have hx : ("x" : String).isEmpty = false := by decide
      have hrun : runAttempt (writeFailEnv w attempt) "md" =
          .raised (w attempt) [.convertCall, .writeCall] := by
        simp [runAttempt, writeFailEnv, lookupStr, EXPORT_METHODS, hx]
      simp only [convertGo, hrun]
      by_cases hlt : attempt < n
      · rw [if_pos hlt]
        rw [ih (attempt + 1) (by omega) (by omega)]
        have hrep : n - attempt = (n - (attempt + 1)) + 1 := by omega
        rw [hrep, List.replicate_succ, List.flatten_cons]
        simp [List.append_assoc]
      · have ha : attempt = n := by omega
        subst ha
        rw [if_neg hlt]
        simp [Nat.sub_self]

/-- C2 amended: a write failure raised by the post-export atomic write is
caught by the retry loop like any other conversion error — while attempts
remain, each write failure consumes a retry (a sleep and a fresh converter
invocation); only when the budget is exhausted is the task recorded as a
failure, its reason the wrapped message of the last write error. -/
theorem convert_document_write_failure_amended (w : Nat → String) (n : Nat) :
    convert_document (writeFailEnv w) "md" n =
      ((false, "Conversion error: " ++ w n),
       [Ev.convertCall, Ev.writeCall] ++
         (List.replicate n [Ev.sleepEv, Ev.convertCall, Ev.writeCall]).flatten) := by
  have h := convertGo_writeFail w n (n + 1) 0 (by omega) (by omega)
  simpa [convert_document] using h

/-! ## Run statistics and the main processing pipeline

`process_conversions` is modelled over the discovered file list (each file
its relative path plus the size `os.path.getsize` reports for it) and a
conversion oracle giving, per (file, output type), the `(success, message)`
pair that `convert_document` returns.  Converter invocations are recorded
as events.  Wall-clock text and float renderings in report lines are
abstracted to exact integer renderings (no claim touches them). -/

/-- One discovered input file: relative path and size in bytes. -/
structure FileIn where
  rel : String
  sizeBytes : Nat
deriving DecidableEq

/-- Mirror of the `ConversionStats` class (source lines 582-628), minus the
wall-clock start time. -/
structure ConversionStats where
  total_files : Nat
  successful : Nat
  failed : Nat
  skipped : Nat
  total_size_bytes : Nat
  failed_files : List (String × String)
deriving DecidableEq

/-- `ConversionStats.add_success` (source lines 594-596). -/
def ConversionStats.add_success (st : ConversionStats) (size_bytes : Nat) :
    ConversionStats :=
  { st with successful := st.successful + 1,
            total_size_bytes := st.total_size_bytes + size_bytes }

/-- `ConversionStats.add_failure` (source lines 598-600). -/
def ConversionStats.add_failure (st : ConversionStats) (filepath reason : String) :
    ConversionStats :=
  { st with failed := st.failed + 1,
            failed_files := st.failed_files ++ [(filepath, reason)] }

/-- `ConversionStats.add_skip` (source lines 602-603). -/
def ConversionStats.add_skip (st : ConversionStats) : ConversionStats :=
  { st with skipped := st.skipped + 1 }

/-- `ConversionStats.summary` (source lines 608-628); the runtime line's
duration text is abstracted. -/
def ConversionStats.summary (st : ConversionStats) : List String :=
  let sep := String.mk (List.replicate 70 '=')
  [sep, "CONVERSION STATISTICS", sep,
   "Total files discovered: " ++ toString st.total_files,
   "Successful conversions: " ++ toString st.successful,
   "Failed conversions: " ++ toString st.failed,
   "Skipped (same type): " ++ toString st.skipped,
   "Total data processed: " ++ toString st.total_size_bytes ++ "B",
   "Total runtime: [wall-clock]"] ++
  (if st.failed_files.isEmpty then [] else
    ["", "Failed Files:"] ++
      st.failed_files.map (fun e => "  - " ++ e.1 ++ ": " ++ e.2)) ++
  [sep]

/-- Size-limit message of `check_file_size` (source line 279); the
`format_bytes` float rendering is abstracted to the exact byte count. -/
def sizeExceedsMsg (sizeBytes maxMb : Nat) : String :=
  "File size " ++ toString sizeBytes ++ "B exceeds limit of " ++
    toString maxMb ++ "MB"

/-- Shallow embedding of `check_file_size` (source lines 267-283).  The
source compares `size_bytes / (1024 * 1024) > max_size_mb` in floats;
division by the power of two is exact, so the comparison coincides with the
integer comparison `size_bytes > max_size_mb * 1024 * 1024` used here. -/
def check_file_size (sizeBytes : Nat) (max_size_mb : Nat) : Bool × String :=
  if max_size_mb * 1024 * 1024 < sizeBytes then
    (false, sizeExceedsMsg sizeBytes max_size_mb)
  else
    (true, "Size: " ++ toString sizeBytes ++ "B")

/-- Pipeline-level event: one `convert_document` invocation for a
(file, output type) task — each such invocation calls the external
conversion capability. -/
inductive PEv where
  | convInvoke (rel : String) (ext : String)
deriving DecidableEq

/-- Basename of a relative path (`os.path.basename`). -/
def baseNameOf (p : String) : String := String.mk (splitLastSlash p.data).2

/-- Dirname of a relative path (`os.path.dirname`, `""` when none). -/
def dirNameOf (p : String) : String :=
  match (splitLastSlash p.data).1 with
  | none => ""
  | some d => String.mk d

/-- The lower-cased, dot-stripped input extension of a discovered file
(source lines 721-722). -/
def inputExtOf (rel : String) : String := lstripDots (lowerStr (splitext rel).2)

/-- The body of the per-output-type loop of `process_conversions` (source
lines 728-763): skip same-type conversions, otherwise build the mirrored
output path, invoke the converter and fold the outcome into statistics,
report and event trace. -/
def processType (oracle : String → String → Bool × String)
    (outputs_dir : String) (f : FileIn)
    (acc : ConversionStats × List String × List PEv) (output_ext : String) :
    ConversionStats × List String × List PEv :=
  if output_ext == inputExtOf f.rel then
    (acc.1.add_skip, acc.2.1, acc.2.2)
  else
    let base := (splitext (baseNameOf f.rel)).1
    let rel_dir := dirNameOf f.rel
    let output_filename := generate_output_filename base (inputExtOf f.rel) output_ext
    let output_path :=
      if rel_dir.isEmpty then outputs_dir ++ "/" ++ output_filename
      else outputs_dir ++ "/" ++ rel_dir ++ "/" ++ output_filename
    let r := oracle f.rel output_ext
    if r.1 then
      (acc.1.add_success f.sizeBytes,
       acc.2.1 ++ ["SUCCESS: " ++ f.rel ++ " -> " ++ output_path],
       acc.2.2 ++ [.convInvoke f.rel output_ext])
    else
      (acc.1.add_failure f.rel r.2,
       acc.2.1 ++ ["FAILED: " ++ f.rel ++ " -> " ++ output_path ++
         " (" ++ r.2 ++ ")"],
       acc.2.2 ++ [.convInvoke f.rel output_ext])

/-- The body of the per-file loop of `process_conversions` (source lines
704-763): size gate first — an oversized file is recorded as a failure and
skipped before any task is generated — then one task per configured output
type. -/
def processFile (oracle : String → String → Bool × String)
    (output_types : List String) (outputs_dir : String) (max_size_mb : Nat)
    (st : ConversionStats) (report : List String) (f : FileIn) :
    ConversionStats × List String × List PEv :=
  let c := check_file_size f.sizeBytes max_size_mb
  if c.1 then
    output_types.foldl (processType oracle outputs_dir f) (st, report, [])
  else
    (st.add_failure f.rel c.2,
     report ++ ["SKIPPED (size): " ++ f.rel ++ " - " ++ c.2],
     [])

/-- Echoed configuration header of the run report (source lines 683-697);
list and count renderings use Lean's `toString` — no claim inspects the
header text. -/
def runReportHeader (genTime : String) (input_types output_types : List String)
    (max_size_mb : Nat) (inputs_dir outputs_dir : String)
    (retry_attempts : Nat) (nFiles : Nat) : List String :=
  ["Document Conversion Run Report",
   "Generated: " ++ genTime,
   "Mode: PRODUCTION",
   "",
   "Configuration:",
   "  Input types: " ++ toString input_types,
   "  Output types: " ++ toString output_types,
   "  Max file size: " ++ toString max_size_mb ++ "MB",
   "  Inputs directory: " ++ inputs_dir,
   "  Outputs directory: " ++ outputs_dir,
   "  Retry attempts: " ++ toString retry_attempts,
   "",
   "Files discovered: " ++ toString nFiles,
   ""]

/-- Result of one `process_conversions` run: the statistics, the run-report
lines, the converter-invocation events, the attempted report write (its
destination path, `none` when no write was attempted) and whether the
report was persisted (`atomic_write` may raise; the failure is swallowed). -/
structure RunResult where
  stats : ConversionStats
  report : List String
  events : List PEv
  reportAttempt : Option String
  reportPersisted : Bool
deriving DecidableEq

/-- One iteration of the per-file loop at the run level: process the file
against the running statistics and report, concatenating its converter
invocations onto the run's event trace. -/
def runStep (oracle : String → String → Bool × String)
    (output_types : List String) (outputs_dir : String) (max_size_mb : Nat)
    (acc : ConversionStats × List String × List PEv) (f : FileIn) :
    ConversionStats × List String × List PEv :=
  let r := processFile oracle output_types outputs_dir max_size_mb acc.1 acc.2.1 f
  (r.1, r.2.1, acc.2.2 ++ r.2.2)

/-- Shallow embedding of `process_conversions` (source lines 631-782) in
production mode, over the discovered file list: when no file was discovered
the function returns after discovery (source lines 678-680) without
building or writing a report; otherwise every file is processed in order
and one atomic report write to `outputs/run_report_<stamp>.txt` is
attempted, a failure of which (`reportWriteFails`) is logged and
swallowed. -/
def process_conversions (files : List FileIn)
    (input_types output_types : List String) (inputs_dir outputs_dir : String)
    (max_size_mb retry_attempts : Nat)
    (oracle : String → String → Bool × String)
    (reportWriteFails : Bool) (stamp genTime : String) : RunResult :=
  let st0 : ConversionStats := ⟨files.length, 0, 0, 0, 0, []⟩
  if files.length = 0 then
    ⟨st0, [], [], none, false⟩
  else
    let hdr := runReportHeader genTime input_types output_types max_size_mb
      inputs_dir outputs_dir retry_attempts files.length
    let folded := files.foldl (runStep oracle output_types outputs_dir max_size_mb)
      (st0, hdr, ([] : List PEv))
    ⟨folded.1, folded.2.1 ++ [""] ++ folded.1.summary, folded.2.2,
     some (outputs_dir ++ "/run_report_" ++ stamp ++ ".txt"),
     !reportWriteFails⟩

/-- Shallow embedding of the run/exit-status logic of `main` (source lines
842-919): a fatal setup error (configuration validation, converter
initialization) aborts with exit status 1; otherwise the run executes and
the exit status is 0 exactly when no failure was recorded (source line
915).  Report-persistence failure is part of the run, not of the exit
computation. -/
def main_run (setupFatal : Bool) (files : List FileIn)
    (input_types output_types : List String) (inputs_dir outputs_dir : String)
    (max_size_mb retry_attempts : Nat)
    (oracle : String → String → Bool × String)
    (reportWriteFails : Bool) (stamp genTime : String) : Nat :=
  if setupFatal then 1
  else
    if (process_conversions files input_types output_types inputs_dir
        outputs_dir max_size_mb retry_attempts oracle reportWriteFails
        stamp genTime).stats.failed = 0 then 0
    else 1

/-- Processing an oversized file short-circuits at the size gate: one
failure is recorded, one report line appended, and no events occur. -/
lemma processFile_oversized
    (oracle : String → String → Bool × String) (output_types : List String)
    (outputs_dir : String) (max_size_mb : Nat) (st : ConversionStats)
    (report : List String) (f : FileIn)
    (h : max_size_mb * 1024 * 1024 < f.sizeBytes) :
    processFile oracle output_types outputs_dir max_size_mb st report f =
      (st.add_failure f.rel (sizeExceedsMsg f.sizeBytes max_size_mb),
       report ++ ["SKIPPED (size): " ++ f.rel ++ " - " ++
         sizeExceedsMsg f.sizeBytes max_size_mb],
       []) := by
  have hc : check_file_size f.sizeBytes max_size_mb =
      (false, sizeExceedsMsg f.sizeBytes max_size_mb) := by
    simp [check_file_size, h]
  simp [processFile, hc]

/-- C10: a file rejected by the size gate contributes exactly one failure
to the statistics — its counter contribution is (0 successes, 1 failure,
0 skips), carrying the size-exceeded reason — and generates no per-type
task at all (no converter invocation), for every configured output-type
list. -/
theorem size_gate_contribution
    (oracle : String → String → Bool × String) (output_types : List String)
    (outputs_dir : String) (max_size_mb : Nat) (st : ConversionStats)
    (report : List String) (f : FileIn)
    (h : max_size_mb * 1024 * 1024 < f.sizeBytes) :
    (processFile oracle output_types outputs_dir max_size_mb st report f =
      (st.add_failure f.rel (sizeExceedsMsg f.sizeBytes max_size_mb),
       report ++ ["SKIPPED (size): " ++ f.rel ++ " - " ++
         sizeExceedsMsg f.sizeBytes max_size_mb],
       [])) ∧
    ((processFile oracle output_types outputs_dir max_size_mb st report f).1.successful
      = st.successful) ∧
    ((processFile oracle output_types outputs_dir max_size_mb st report f).1.failed
      = st.failed + 1) ∧
    ((processFile oracle output_types outputs_dir max_size_mb st report f).1.skipped
      = st.skipped) := by
  have hp := processFile_oversized oracle output_types outputs_dir max_size_mb
    st report f h
  refine ⟨hp, ?_, ?_, ?_⟩ <;> simp [hp, ConversionStats.add_failure]

/-- Witness for C10: a 100 MB + 1 byte file against a 100 MB ceiling, with
two output types configured, contributes (0, 1, 0) and no events. -/
theorem size_gate_contribution_witness :
    100 * 1024 * 1024 < 104857601 ∧
    ((processFile (fun _ _ => (true, "Success")) ["md", "html"] "./outputs" 100
        ⟨1, 0, 0, 0, 0, []⟩ [] ⟨"big.pdf", 104857601⟩).1.failed = 0 + 1) ∧
    ((processFile (fun _ _ => (true, "Success")) ["md", "html"] "./outputs" 100
        ⟨1, 0, 0, 0, 0, []⟩ [] ⟨"big.pdf", 104857601⟩).1.skipped = 0) := by
  have h := size_gate_contribution (fun _ _ => (true, "Success")) ["md", "html"]
    "./outputs" 100 ⟨1, 0, 0, 0, 0, []⟩ [] ⟨"big.pdf", 104857601⟩ (by norm_num)
  exact ⟨by norm_num, h.2.2.1, h.2.2.2⟩

/-- Counterexample for C9 as stated: a run that discovers zero input files
returns before the report phase (source lines 678-680) — no report write is
attempted, no report content exists — contradicting that every run persists
its report. -/
theorem process_conversions_empty_run_no_report :
    ((process_conversions [] ["pdf"] ["md"] "./inputs" "./outputs" 100 2
        (fun _ _ => (true, "Success")) false "S" "T").reportAttempt = none) ∧
    ((process_conversions [] ["pdf"] ["md"] "./inputs" "./outputs" 100 2
        (fun _ _ => (true, "Success")) false "S" "T").report = []) ∧
    ((process_conversions [] ["pdf"] ["md"] "./inputs" "./outputs" 100 2
        (fun _ _ => (true, "Success")) false "S" "T").reportPersisted = false) :=
  ⟨rfl, rfl, rfl⟩

/-- C9 amended: a run attempts exactly one report write — an atomic write
of the accumulated report lines to `outputs/run_report_<stamp>.txt` — if
and only if it discovered at least one input file; a run that discovers
zero files returns early and writes nothing.  When attempted, the write
persists exactly when the atomic write does not fail (a failure is logged
and swallowed). -/
theorem process_conversions_report_amended (files : List FileIn)
    (input_types output_types : List String) (inputs_dir outputs_dir : String)
    (max_size_mb retry_attempts : Nat)
    (oracle : String → String → Bool × String)
    (reportWriteFails : Bool) (stamp genTime : String) :
    ((process_conversions files input_types output_types inputs_dir outputs_dir
        max_size_mb retry_attempts oracle reportWriteFails stamp genTime).reportAttempt
      = if files.length = 0 then none
        else some (outputs_dir ++ "/run_report_" ++ stamp ++ ".txt")) ∧
    ((process_conversions files input_types output_types inputs_dir outputs_dir
        max_size_mb retry_attempts oracle reportWriteFails stamp genTime).reportPersisted
      = if files.length = 0 then false else !reportWriteFails) := by
  by_cases h : files.length = 0 <;> simp [process_conversions, h]

/-- Statistics are unaffected by whether the report write fails: the
persist failure is caught after the statistics are final (source lines
773-778). -/
lemma process_conversions_stats_fault_indep (files : List FileIn)
    (input_types output_types : List String) (inputs_dir outputs_dir : String)
    (max_size_mb retry_attempts : Nat)
    (oracle : String → String → Bool × String) (b₁ b₂ : Bool)
    (stamp genTime : String) :
    (process_conversions files input_types output_types inputs_dir outputs_dir
        max_size_mb retry_attempts oracle b₁ stamp genTime).stats =
    (process_conversions files input_types output_types inputs_dir outputs_dir
        max_size_mb retry_attempts oracle b₂ stamp genTime).stats := by
  by_cases h : files.length = 0 <;> simp [process_conversions, h]

/-- C8: the process exit status is 0 if and only if setup did not abort
fatally and zero failure outcomes were recorded during the run; and the
exit status is unchanged by a failure to persist the run report. -/
theorem main_exit_status (setupFatal : Bool) (files : List FileIn)
    (input_types output_types : List String) (inputs_dir outputs_dir : String)
    (max_size_mb retry_attempts : Nat)
    (oracle : String → String → Bool × String)
    (reportWriteFails : Bool) (stamp genTime : String) :
    (main_run setupFatal files input_types output_types inputs_dir outputs_dir
        max_size_mb retry_attempts oracle reportWriteFails stamp genTime = 0 ↔
      setupFatal = false ∧
        (process_conversions files input_types output_types inputs_dir
          outputs_dir max_size_mb retry_attempts oracle reportWriteFails
          stamp genTime).stats.failed = 0) ∧
    (∀ b₁ b₂ : Bool,
      main_run setupFatal files input_types output_types inputs_dir outputs_dir
        max_size_mb retry_attempts oracle b₁ stamp genTime =
      main_run setupFatal files input_types output_types inputs_dir outputs_dir
        max_size_mb retry_attempts oracle b₂ stamp genTime) := by
  constructor
  · by_cases hs : setupFatal
    · simp [main_run, hs]
    · simp only [main_run, if_neg hs]
      by_cases hf : (process_conversions files input_types output_types
          inputs_dir outputs_dir max_size_mb retry_attempts oracle
          reportWriteFails stamp genTime).stats.failed = 0 <;>
        simp [hf, hs]
  · intro b₁ b₂
    unfold main_run
    rw [process_conversions_stats_fault_indep files input_types output_types
      inputs_dir outputs_dir max_size_mb retry_attempts oracle b₁ b₂ stamp genTime]

/-- Converter invocations a file generates: none when the size gate
rejects it, otherwise one per configured output type that differs from the
source extension. -/
def fileEvents (output_types : List String) (max_size_mb : Nat) (f : FileIn) :
    List PEv :=
  if max_size_mb * 1024 * 1024 < f.sizeBytes then []
  else
    output_types.filterMap (fun ext =>
      if ext == inputExtOf f.rel then none else some (.convInvoke f.rel ext))

lemma processType_evs (oracle : String → String → Bool × String)
    (outputs_dir : String) (f : FileIn)
    (acc : ConversionStats × List String × List PEv) (output_ext : String) :
    (processType oracle outputs_dir f acc output_ext).2.2 =
      acc.2.2 ++ (if output_ext == inputExtOf f.rel then []
                  else [PEv.convInvoke f.rel output_ext]) := by
  cases hb : output_ext == inputExtOf f.rel
  · simp only [processType, hb, Bool.false_eq_true, if_false]
    cases hr : (oracle f.rel output_ext).1 <;> simp [hr]
  · simp [processType, hb]

lemma processType_failed_mono (oracle : String → String → Bool × String)
    (outputs_dir : String) (f : FileIn)
    (acc : ConversionStats × List String × List PEv) (output_ext : String) :
    ∃ l, (processType oracle outputs_dir f acc output_ext).1.failed_files =
      acc.1.failed_files ++ l := by
  cases hb : output_ext == inputExtOf f.rel
  · simp only [processType, hb, Bool.false_eq_true, if_false]
    cases hr : (oracle f.rel output_ext).1
    · exact ⟨[(f.rel, (oracle f.rel output_ext).2)],
        by simp [hr, ConversionStats.add_failure]⟩
    · exact ⟨[], by simp [hr, ConversionStats.add_success]⟩
  · exact ⟨[], by simp [processType, hb, ConversionStats.add_skip]⟩

lemma foldl_processType_evs (oracle : String → String → Bool × String)
    (outputs_dir : String) (f : FileIn) :
    ∀ (types : List String) (acc : ConversionStats × List String × List PEv),
      (types.foldl (processType oracle outputs_dir f) acc).2.2 =
        acc.2.2 ++ types.filterMap (fun ext =>
          if ext == inputExtOf f.rel then none
          else some (PEv.convInvoke f.rel ext)) := by
  intro types
  induction types with
  | nil => intro acc; simp
  | cons t rest ih =>
      intro acc
      simp only [List.foldl_cons, List.filterMap_cons]
      rw [ih, processType_evs]
      cases hb : t == inputExtOf f.rel <;> simp [List.append_assoc]

lemma foldl_processType_failed_mono (oracle : String → String → Bool × String)
    (outputs_dir : String) (f : FileIn) :
    ∀ (types : List String) (acc : ConversionStats × List String × List PEv),
      ∃ l, (types.foldl (processType oracle outputs_dir f) acc).1.failed_files =
        acc.1.failed_files ++ l := by
  intro types
  induction types with
  | nil => intro acc; exact ⟨[], by simp⟩
  | cons t rest ih =>
      intro acc
      obtain ⟨l₁, h₁⟩ := processType_failed_mono oracle outputs_dir f acc t
      obtain ⟨l₂, h₂⟩ := ih (processType oracle outputs_dir f acc t)
      exact ⟨l₁ ++ l₂, by simp only [List.foldl_cons]; rw [h₂, h₁, List.append_assoc]⟩

lemma processFile_evs (oracle : String → String → Bool × String)
    (output_types : List String) (outputs_dir : String) (max_size_mb : Nat)
    (st : ConversionStats) (report : List String) (f : FileIn) :
    (processFile oracle output_types outputs_dir max_size_mb st report f).2.2 =
      fileEvents output_types max_size_mb f := by
  by_cases h : max_size_mb * 1024 * 1024 < f.sizeBytes
  · rw [processFile_oversized oracle output_types outputs_dir max_size_mb
      st report f h]
    simp [fileEvents, h]
  · have hc : check_file_size f.sizeBytes max_size_mb =
        (true, "Size: " ++ toString f.sizeBytes ++ "B") := by
      simp [check_file_size, h]
    simp only [processFile, hc, fileEvents, if_neg h, if_true]
    rw [foldl_processType_evs]
    simp

lemma processFile_failed_mono (oracle : String → String → Bool × String)
    (output_types : List String) (outputs_dir : String) (max_size_mb : Nat)
    (st : ConversionStats) (report : List String) (f : FileIn) :
    ∃ l, (processFile oracle output_types outputs_dir max_size_mb st report
        f).1.failed_files = st.failed_files ++ l := by
  by_cases h : max_size_mb * 1024 * 1024 < f.sizeBytes
  · refine ⟨[(f.rel, sizeExceedsMsg f.sizeBytes max_size_mb)], ?_⟩
    rw [processFile_oversized oracle output_types outputs_dir max_size_mb
      st report f h]
    simp [ConversionStats.add_failure]
  · have hc : check_file_size f.sizeBytes max_size_mb =
        (true, "Size: " ++ toString f.sizeBytes ++ "B") := by
      simp [check_file_size, h]
    simp only [processFile, hc, if_true]
    exact foldl_processType_failed_mono oracle outputs_dir f output_types
      (st, report, [])

lemma foldl_runStep_evs (oracle : String → String → Bool × String)
    (output_types : List String) (outputs_dir : String) (max_size_mb : Nat) :
    ∀ (files : List FileIn) (acc : ConversionStats × List String × List PEv),
      (files.foldl (runStep oracle output_types outputs_dir max_size_mb) acc).2.2 =
        acc.2.2 ++ files.flatMap (fileEvents output_types max_size_mb) := by
  intro files
  induction files with
  | nil => intro acc; simp
  | cons g rest ih =>
      intro acc
      simp only [List.foldl_cons, List.flatMap_cons]
      rw [ih]
      simp [runStep, processFile_evs, List.append_assoc]

lemma foldl_runStep_failed_mem (oracle : String → String → Bool × String)
    (output_types : List String) (outputs_dir : String) (max_size_mb : Nat) :
    ∀ (files : List FileIn) (acc : ConversionStats × List String × List PEv)
      (x : String × String), x ∈ acc.1.failed_files →
      x ∈ (files.foldl (runStep oracle output_types outputs_dir max_size_mb)
        acc).1.failed_files := by
  intro files
  induction files with
  | nil => intro acc x hx; simpa using hx
  | cons g rest ih =>
      intro acc x hx
      simp only [List.foldl_cons]
      apply ih
      obtain ⟨l, hl⟩ := processFile_failed_mono oracle output_types outputs_dir
        max_size_mb acc.1 acc.2.1 g
      simp only [runStep, hl]
      exact List.mem_append_left l hx

lemma foldl_runStep_oversized_mem (oracle : String → String → Bool × String)
    (output_types : List String) (outputs_dir : String) (max_size_mb : Nat) :
    ∀ (files : List FileIn) (acc : ConversionStats × List String × List PEv)
      (f : FileIn), f ∈ files → max_size_mb * 1024 * 1024 < f.sizeBytes →
      (f.rel, sizeExceedsMsg f.sizeBytes max_size_mb) ∈
        (files.foldl (runStep oracle output_types outputs_dir max_size_mb)
          acc).1.failed_files := by
  intro files
  induction files with
  | nil => intro acc f hf; simp at hf
  | cons g rest ih =>
      intro acc f hf hsize
      rcases List.mem_cons.mp hf with rfl | hf'
      · simp only [List.foldl_cons]
        apply foldl_runStep_failed_mem
        simp only [runStep,
          processFile_oversized oracle output_types outputs_dir max_size_mb
            acc.1 acc.2.1 f hsize]
        simp [ConversionStats.add_failure]
      · simp only [List.foldl_cons]
        exact ih _ f hf' hsize

/-- C6: for every discovered file whose size exceeds the configured
ceiling, the run records a failure outcome carrying the size-exceeded
reason (it enters the statistics' failure list, not the skip counter — see
also the C10 theorem for the exact counter contribution), and the external
conversion capability is never invoked on that file for any output type. -/
theorem size_gate_failure_no_convert (files : List FileIn)
    (input_types output_types : List String) (inputs_dir outputs_dir : String)
    (max_size_mb retry_attempts : Nat)
    (oracle : String → String → Bool × String)
    (reportWriteFails : Bool) (stamp genTime : String)
    (hnodup : (files.map FileIn.rel).Nodup)
    (f : FileIn) (hf : f ∈ files)
    (hsize : max_size_mb * 1024 * 1024 < f.sizeBytes) :
    ((f.rel, sizeExceedsMsg f.sizeBytes max_size_mb) ∈
      (process_conversions files input_types output_types inputs_dir
        outputs_dir max_size_mb retry_attempts oracle reportWriteFails
        stamp genTime).stats.failed_files) ∧
    (∀ ext, PEv.convInvoke f.rel ext ∉
      (process_conversions files input_types output_types inputs_dir
        outputs_dir max_size_mb retry_attempts oracle reportWriteFails
        stamp genTime).events) := by
  have hne : files ≠ [] := by
    intro h; rw [h] at hf; simp at hf
  have hlen : ¬ files.length = 0 := by
    simpa [List.length_eq_zero] using hne
  constructor
  · simp only [process_conversions, if_neg hlen]
    exact foldl_runStep_oversized_mem oracle output_types outputs_dir
      max_size_mb files _ f hf hsize
  · intro ext hmem
    simp only [process_conversions, if_neg hlen] at hmem
    rw [foldl_runStep_evs] at hmem
    simp only [List.nil_append, List.mem_flatMap] at hmem
    obtain ⟨g, hg, hev⟩ := hmem
    unfold fileEvents at hev
    by_cases hg' : max_size_mb * 1024 * 1024 < g.sizeBytes
    · rw [if_pos hg'] at hev
      simp at hev
    · rw [if_neg hg'] at hev
      simp only [List.mem_filterMap] at hev
      obtain ⟨ext', _, heq⟩ := hev
      cases hb : ext' == inputExtOf g.rel
      · rw [hb] at heq
        simp only [Bool.false_eq_true, if_false, Option.some.injEq] at heq
        have hrel : g.rel = f.rel := by
          have := (PEv.convInvoke.injEq ..).mp heq
          exact this.1
        have hgf : g = f :=
          List.inj_on_of_nodup_map hnodup hg hf hrel
        rw [hgf] at hg'
        exact hg' hsize
      · rw [hb] at heq
        simp at heq

/-- Witness for C6 at a concrete run: the oversized file appears in the
failure list with the size-exceeded reason and its converter invocation is
absent from the run's event trace. -/
theorem size_gate_failure_no_convert_witness :
    (("big.pdf", sizeExceedsMsg 104857601 100) ∈
      (process_conversions [⟨"big.pdf", 104857601⟩, ⟨"ok.pdf", 10⟩]
        ["pdf"] ["md"] "./inputs" "./outputs" 100 2
        (fun _ _ => (true, "Success")) false "S" "T").stats.failed_files) ∧
    (PEv.convInvoke "big.pdf" "md" ∉
      (process_conversions [⟨"big.pdf", 104857601⟩, ⟨"ok.pdf", 10⟩]
        ["pdf"] ["md"] "./inputs" "./outputs" 100 2
        (fun _ _ => (true, "Success")) false "S" "T").events) := by
  have h := size_gate_failure_no_convert
    [⟨"big.pdf", 104857601⟩, ⟨"ok.pdf", 10⟩] ["pdf"] ["md"]
    "./inputs" "./outputs" 100 2 (fun _ _ => (true, "Success")) false "S" "T"
    (by decide) ⟨"big.pdf", 104857601⟩ (by decide) (by norm_num)
  exact ⟨h.1, h.2 "md"⟩

end Docling
